import Mathlib

/-!
Verification of the `auto-updater` enrichment and consensus-merge pipeline of
the `ai-book` repository.  JavaScript objects are modelled as structures with
`Option` fields (`none` = property absent / `undefined`); JS string truthiness
(`undefined`, `null` and `""` are falsy) is modelled by `truthyStr`; JS number
arithmetic on the parsed funding amounts is modelled exactly over `ℚ` (for
every input exercised here the IEEE double result coincides with the exact
rational value); timestamps are modelled as integer milliseconds (the value of
`Date.getTime()`); the external HTTP services are modelled as oracles passed
in as function arguments, `none` denoting a failed call or unparseable
response.
-/

/-- Model of JavaScript `String.prototype.toLowerCase` (ASCII case folding,
as exercised by the data set). -/
def lowerStr (s : String) : String :=
  String.mk (s.data.map Char.toLower)

/-- JS whitespace characters relevant to `trim` and the `\s` regex class. -/
def isWsChar (c : Char) : Bool :=
  c = ' ' || c = '\t' || c = '\n' || c = '\r'

/-- Model of JavaScript `String.prototype.trim`. -/
def trimStr (s : String) : String :=
  String.mk (((s.data.dropWhile isWsChar).reverse.dropWhile isWsChar).reverse)

/-- JavaScript truthiness of a possibly-absent string value:
`undefined`/`null`/`""` are falsy. -/
def truthyStr (o : Option String) : Bool :=
  match o with
  | none => false
  | some s => !s.isEmpty

/-- JavaScript template-literal interpolation of a possibly-absent string. -/
def interpStr (o : Option String) : String :=
  o.getD "undefined"

/-- Case-insensitive-ready lexicographic order on char lists by code point,
modelling the total order used to sort company names
(`localeCompare` on lowercased names). -/
def lexLe : List Char → List Char → Bool
  | [], _ => true
  | _ :: _, [] => false
  | a :: as, b :: bs =>
    if a.toNat < b.toNat then true
    else if b.toNat < a.toNat then false
    else lexLe as bs

namespace Updater

/-! ### Funding-amount parsing (`updater.js` lines 79-96 and 152-159)

The source runs `amount.match(/([\d.]+)\s*(M|B|T)/i)`: the *first* maximal run
of digits/dots that is followed (after optional whitespace) by an `M`/`B`/`T`
letter (either case), then `parseFloat` on the run and a fixed multiplier.
Backtracking inside the numeric run can never succeed (the character after a
shortened run is itself a digit or dot), so the regex is equivalent to the
left-to-right scan below. -/

/-- Characters matched by the `[\d.]` class. -/
def isNumChar (c : Char) : Bool :=
  c.isDigit || c = '.'

/-- Characters matched by the `(M|B|T)` alternation with the `i` flag. -/
def isSufChar (c : Char) : Bool :=
  c = 'M' || c = 'B' || c = 'T' || c = 'm' || c = 'b' || c = 't'

/-- Scanner state for the amount regex: outside any numeric run, inside a
run (accumulated in reverse), or in the whitespace after a run. -/
inductive ScanState where
  | start : ScanState
  | run (acc : List Char) : ScanState
  | ws (acc : List Char) : ScanState

/-- One-pass scan equivalent to matching `/([\d.]+)\s*(M|B|T)/i`: returns the
captured numeric run and the suffix letter of the first match. -/
def scanStep : ScanState → List Char → Option (List Char × Char)
  | _, [] => none
  | .start, c :: rest =>
    if isNumChar c then scanStep (.run [c]) rest else scanStep .start rest
  | .run acc, c :: rest =>
    if isNumChar c then scanStep (.run (c :: acc)) rest
    else if isWsChar c then scanStep (.ws acc) rest
    else if isSufChar c then some (acc.reverse, c)
    else scanStep .start rest
  | .ws acc, c :: rest =>
    if isWsChar c then scanStep (.ws acc) rest
    else if isSufChar c then some (acc.reverse, c)
    else if isNumChar c then scanStep (.run [c]) rest
    else scanStep .start rest

/-- Numeric value of a list of decimal digits. -/
def digitsToNat (ds : List Char) : Nat :=
  ds.foldl (fun n c => n * 10 + (c.toNat - 48)) 0

/-- Model of `parseFloat` restricted to strings over digits and dots (the only
strings the regex can capture): the mantissa as `(numerator, decimals)`
meaning `numerator / 10 ^ decimals`; `none` models `NaN` (a run of dots
only).  `parseFloat` reads digits, at most one dot, then digits, and ignores
the rest (`"1.2.3"` parses as `1.2`). -/
def parseFloatParts (run : List Char) : Option (Nat × Nat) :=
  let intDigits := run.takeWhile Char.isDigit
  let rest := run.dropWhile Char.isDigit
  match rest with
  | '.' :: rest2 =>
    let fracDigits := rest2.takeWhile Char.isDigit
    if intDigits.isEmpty && fracDigits.isEmpty then none
    else some (digitsToNat intDigits * 10 ^ fracDigits.length + digitsToNat fracDigits,
               fracDigits.length)
  | _ =>
    if intDigits.isEmpty then none else some (digitsToNat intDigits, 0)

/-- Exponent of the multiplier: `toUpperCase() === 'B' ? 1e9 : ... === 'T' ?
1e12 : 1e6`. -/
def multExp (c : Char) : Nat :=
  if c.toUpper = 'B' then 9 else if c.toUpper = 'T' then 12 else 6

/-- Mantissa and multiplier of `amount.match(/([\d.]+)\s*(M|B|T)/i)`:
`some (n, k, m)` denotes the value `n / 10 ^ k * 10 ^ m`. -/
def parseAmountParts (s : String) : Option (Nat × Nat × Nat) :=
  match scanStep .start s.data with
  | none => none
  | some (run, sfx) =>
    match parseFloatParts run with
    | none => none
    | some (n, k) => some (n, k, multExp sfx)

/-- The numeric funding value derived from an amount string, or `none` when
the regex does not match (a match whose captured numeral is dots-only yields
`NaN` in JS and is likewise modelled as `none`). -/
def parseFundingValue (s : String) : Option ℚ :=
  (parseAmountParts s).map (fun p => (p.1 : ℚ) / 10 ^ p.2.1 * 10 ^ p.2.2)

/-- Modelled from the spec: the spec's words say the parser reads a
*trailing* `<number><M|B|T>` suffix, i.e. the match anchored at the end of
the string; used only to compare the spec's reading with the source's
first-match behaviour. -/
def specTrailingValue (s : String) : Option ℚ :=
  match s.data.reverse with
  | sfx :: rest =>
    if isSufChar sfx then
      let run := ((rest.dropWhile isWsChar).takeWhile isNumChar).reverse
      match parseFloatParts run with
      | none => none
      | some (n, k) => some ((n : ℚ) / 10 ^ k * 10 ^ multExp sfx)
    else none
  | [] => none

/-! ### Data model of `companies.json` records as touched by `updater.js` -/

/-- One entry of the `fundingRounds` history. -/
structure Round where
  stage : String
  amount : String
  date : String
  investors : String
deriving DecidableEq

/-- A company record, with `Option` for properties that may be absent. -/
structure Company where
  id : Int := 0
  name : String := ""
  product : Option String := none
  category : Option String := none
  founded : Option Int := none
  funding : Option String := none
  fundingValue : Option ℚ := none
  rating : Option Int := none
  website : Option String := none
  hq : Option String := none
  description : Option String := none
  valuation : Option String := none
  lastRound : Option String := none
  investors : Option String := none
  fundingRounds : Option (List Round) := none
  lastAutoUpdate : Option String := none
  dateAdded : Option String := none
  status : Option String := none
  acquiredBy : Option String := none
  maInsight : Option String := none
deriving DecidableEq

/-- The details object of an extracted news event. -/
structure EventDetails where
  amount : Option String := none
  valuation : Option String := none
  round : Option String := none
  investors : Option String := none
  acquirer : Option String := none
  description : Option String := none
deriving DecidableEq

/-- An extracted news event. -/
structure Event where
  type : String
  company : String
  details : EventDetails := {}
  confidence : String := ""
  date : Option String := none
deriving DecidableEq

/-- The date values the script reads from `new Date()`:
`today = toISOString().split('T')[0]`, `year = getFullYear()` (as the string
it interpolates to and as a number), `ym = toISOString().slice(0, 7)`. -/
structure Clock where
  today : String
  year : String
  yearN : Int
  ym : String
deriving DecidableEq

/-- The value `event.date || new Date().getFullYear()` as interpolated into templates. -/
def dateOrYear (e : Event) (clock : Clock) : String :=
  if truthyStr e.date then e.date.getD "" else clock.year

/-- The value `event.date || new Date().toISOString().slice(0, 7)`. -/
def dateOrMonth (e : Event) (clock : Clock) : String :=
  if truthyStr e.date then e.date.getD "" else clock.ym

/-- The apostrophe character, spelled via its code point. -/
def apos : String := (Char.ofNat 39).toString

/-- In-place mutation of the first record satisfying `p` (the record found by
`companies.find(...)` is mutated through its reference). -/
def updateFirst (p : Company → Bool) (f : Company → Company) : List Company → List Company
  | [] => []
  | c :: rest => if p c then f c :: rest else c :: updateFirst p f rest

/-- The `funding && existing` branch of `applyEvent` (lines 77-111). -/
def applyFundingExisting (e : Event) (c : Company) (clock : Clock) : Company :=
  let c1 :=
    if truthyStr e.details.amount then
      let amt := e.details.amount.getD ""
      match parseFundingValue amt with
      | some v => { c with funding := some amt, fundingValue := some v }
      | none => { c with funding := some amt }
    else c
  let c2 := if truthyStr e.details.valuation then { c1 with valuation := e.details.valuation } else c1
  let c3 :=
    if truthyStr e.details.round then
      { c2 with lastRound := some ((e.details.round.getD "") ++ " (" ++ dateOrYear e clock ++ ")") }
    else c2
  let c4 := if truthyStr e.details.investors then { c3 with investors := e.details.investors } else c3
  let c5 := if truthyStr e.details.description then { c4 with description := e.details.description } else c4
  let c6 := { c5 with lastAutoUpdate := some clock.today }
  if truthyStr e.details.round && truthyStr e.details.amount then
    { c6 with fundingRounds := some ((c6.fundingRounds.getD []) ++
        [{ stage := e.details.round.getD "", amount := e.details.amount.getD "",
           date := dateOrMonth e clock, investors := e.details.investors.getD "" }]) }
  else c6

/-- The `acquisition && existing` branch of `applyEvent` (lines 113-122). -/
def applyAcquisition (e : Event) (c : Company) (clock : Clock) : Company :=
  { c with
    status := some "acquired",
    acquiredBy := some (if truthyStr e.details.acquirer then e.details.acquirer.getD "" else "Unknown"),
    funding := some ("Acquired by " ++ interpStr e.details.acquirer ++ " (" ++
      (if truthyStr e.details.amount then e.details.amount.getD "" else "undisclosed") ++ ")"),
    valuation := some (if truthyStr e.details.amount then
      (e.details.amount.getD "") ++ " (acquisition)" else "Acquired"),
    lastRound := some ("Acquired by " ++ interpStr e.details.acquirer ++ " (" ++ dateOrYear e clock ++ ")"),
    maInsight := some ("ACQUIRED by " ++ interpStr e.details.acquirer ++ ". " ++
      (if truthyStr e.details.description then e.details.description.getD "" else "")),
    lastAutoUpdate := some clock.today }

/-- The `ipo && existing` branch of `applyEvent` (lines 124-131). -/
def applyIpo (e : Event) (c : Company) (clock : Clock) : Company :=
  { c with
    funding := some ("IPO" ++ apos ++ "d (" ++ dateOrYear e clock ++ ")"),
    valuation := some ("Public" ++
      (if truthyStr e.details.amount then " - " ++ (e.details.amount.getD "") else "")),
    lastRound := some ("IPO (" ++ dateOrYear e clock ++ ")"),
    maInsight := some ("NOW PUBLIC. " ++
      (if truthyStr e.details.description then e.details.description.getD "" else "")),
    lastAutoUpdate := some clock.today }

/-- The record inserted by the unmatched high-confidence `funding` branch
(lines 133-166).  `Math.max(...ids)` over the empty collection is
`-Infinity` in JS; the claims about insertion constrain the collection to be
non-empty, and the model returns ids based on `getD 0` there. -/
def newCompanyFrom (cs : List Company) (e : Event) (clock : Clock) : Company :=
  let maxId := ((cs.map (fun c => c.id)).max?).getD 0
  let base : Company :=
    { id := maxId + 1,
      name := e.company,
      product := some (if truthyStr e.details.description then
        (((e.details.description.getD "").splitOn ".").headD "") else "AI Platform"),
      category := some "enterprise-ai",
      founded := some clock.yearN,
      funding := some (if truthyStr e.details.amount then e.details.amount.getD "" else "Unknown"),
      fundingValue := some 0,
      rating := some 3,
      website := some "",
      hq := some "",
      description := some (if truthyStr e.details.description then e.details.description.getD ""
        else "AI company with " ++ interpStr e.details.amount ++ " in funding."),
      lastAutoUpdate := some clock.today,
      dateAdded := some clock.today }
  let c1 :=
    if truthyStr e.details.amount then
      match parseFundingValue (e.details.amount.getD "") with
      | some v => { base with fundingValue := some v }
      | none => base
    else base
  let c2 := if truthyStr e.details.valuation then { c1 with valuation := e.details.valuation } else c1
  let c3 :=
    if truthyStr e.details.round then
      { c2 with lastRound := some ((e.details.round.getD "") ++ " (" ++ dateOrYear e clock ++ ")") }
    else c2
  if truthyStr e.details.investors then { c3 with investors := e.details.investors } else c3

/-- Model of `applyEvent(companies, event)` (lines 73-169): returns the action string
(`null` modelled as `none`) and the mutated collection. -/
def applyEvent (cs : List Company) (e : Event) (clock : Clock) : Option String × List Company :=
  let nameKey := lowerStr e.company
  let matchP := fun (c : Company) => lowerStr c.name == nameKey
  let existing := cs.find? matchP
  if e.type = "funding" && existing.isSome then
    (some "updated", updateFirst matchP (fun c => applyFundingExisting e c clock) cs)
  else if e.type = "acquisition" && existing.isSome then
    (some "updated_acquisition", updateFirst matchP (fun c => applyAcquisition e c clock) cs)
  else if e.type = "ipo" && existing.isSome then
    (some "updated_ipo", updateFirst matchP (fun c => applyIpo e c clock) cs)
  else if e.type = "funding" && existing.isNone && e.confidence = "high" then
    (some "added", cs ++ [newCompanyFrom cs e clock])
  else (none, cs)

/-- The event loop of `runDailyUpdate` (lines 192-197): low-confidence events
are skipped, non-`null` results are collected as changes. -/
def applyEvents (cs : List Company) (events : List Event) (clock : Clock) :
    List Company × List String :=
  events.foldl (fun acc e =>
    if e.confidence = "low" then acc
    else
      let r := applyEvent acc.1 e clock
      (r.2, acc.2 ++ r.1.toList)) (cs, [])

/-- Model of `companies.sort((a, b) => a.name.toLowerCase().localeCompare(b.name.toLowerCase()))`,
modelled with the code-point order on lowercased names (a stable sort by a
total order, as `Array.prototype.sort` is). -/
def sortByName (cs : List Company) : List Company :=
  cs.mergeSort (fun a b => lexLe (lowerStr a.name).data (lowerStr b.name).data)

/-- Model of `companies.forEach((c, i) => { c.id = i + 1; })` (line 210). -/
def reindex (cs : List Company) : List Company :=
  cs.enum.map (fun ic => { ic.2 with id := (ic.1 : Int) + 1 })

/-- The state transformation of `runDailyUpdate` (lines 171-225): apply the
events; if no events were found or no change was applied the collection is
returned as is, otherwise it is sorted by lowercased name and re-indexed. -/
def runDailyUpdate (cs : List Company) (events : List Event) (clock : Clock) : List Company :=
  if events.isEmpty then cs
  else
    let p := applyEvents cs events clock
    if p.2.isEmpty then p.1
    else reindex (sortByName p.1)

end Updater

namespace GitStore

/-! ### The GitHub-backed record store (`github.js`)

The GitHub Contents API is modelled as a state `(content, sha)`; a `PUT`
succeeds exactly when the supplied `sha` equals the store's current one and
then advances it, otherwise it is rejected with a conflict status.
`fetchCompaniesJson` returns only the decoded content — the `sha` of the
`GET` response is discarded.  `updateCompaniesJson` performs its own `GET`
immediately before the `PUT` and supplies the `sha` of *that* response; the
two phases are modelled by the store states `getSt` (when its internal `GET`
runs) and `putSt` (when its `PUT` runs). -/

/-- The remote store: the current `companies.json` content and its version
token (commit/blob sha, modelled as a counter). -/
structure GitState where
  content : String
  sha : Nat
deriving DecidableEq

/-- Errors surfaced by the store. -/
inductive GitError where
  | conflict : GitError
deriving DecidableEq

/-- The Contents-API `PUT`: sha-guarded update. -/
def putContents (st : GitState) (sha : Nat) (newContent : String) : Except GitError GitState :=
  if sha = st.sha then Except.ok { content := newContent, sha := st.sha + 1 }
  else Except.error GitError.conflict

/-- Model of `fetchCompaniesJson` (lines 17-28): decodes and returns the content; the
response's `sha` is not returned to the caller. -/
def fetchCompaniesJson (st : GitState) : String :=
  st.content

/-- Model of `updateCompaniesJson` (lines 30-62): `GET` the current file to obtain its
`sha`, then `PUT` the new content guarded by that `sha`. -/
def updateCompaniesJson (getSt putSt : GitState) (newContent : String) :
    Except GitError GitState :=
  putContents putSt getSt.sha newContent

end GitStore

namespace Signals

/-! ### Signal enrichment (`enrich-signals.js`), Hacker News source -/

/-- The `topStory` payload built by `fetchHN`. -/
structure Story where
  title : String
  url : String
  points : Nat
  date : Option String
deriving DecidableEq

/-- A successful `fetchHN` result; a failed fetch is `none` at the oracle. -/
structure HNData where
  count : Nat
  topStory : Option Story
deriving DecidableEq

/-- A company record as touched by the HN source.  The outer `Option` of
`hn_top_story` is property presence (`hasOwnProperty`), the inner one the
possibly-`null` value.  `hn_enriched_at` stores the timestamp in epoch
milliseconds (the value of `new Date(iso).getTime()`). -/
structure Company where
  name : String
  website : Option String := none
  hn_mentions : Option Nat := none
  hn_top_story : Option (Option Story) := none
  hn_enriched_at : Option Int := none
deriving DecidableEq

/-- Constant `STALE_DAYS = 7`. -/
def STALE_DAYS : Nat := 7

/-- Model of `isStale(isoDate, days)` (lines 28-32): a missing timestamp is stale;
otherwise stale iff `now - timestamp > days * 24h` in milliseconds. -/
def isStale (ts : Option Int) (days : Nat) (now : Int) : Bool :=
  match ts with
  | none => true
  | some t => now - t > (days : Int) * 24 * 60 * 60 * 1000

/-- The per-record refresh decision of the HN pass (line 82), i.e. the
negation of the skip condition
`!force && c.hasOwnProperty('hn_mentions') && !isStale(c.hn_enriched_at, STALE_DAYS)`. -/
def isDue (c : Company) (ttlDays : Nat) (force : Bool) (now : Int) : Bool :=
  !(!force && c.hn_mentions.isSome && !(isStale c.hn_enriched_at ttlDays now))

/-- The skip condition of the `enrichHN` loop (line 82). -/
def hnSkip (force : Bool) (now : Int) (c : Company) : Bool :=
  !force && c.hn_mentions.isSome && !(isStale c.hn_enriched_at STALE_DAYS now)

/-- The body of the `enrichHN` loop for one record (lines 81-103): skip fresh
records; otherwise perform one external call (counted in the second
component) and, only when it succeeds, write the result fields and the
timestamp — a failed fetch leaves the record untouched. -/
def hnStep (force : Bool) (oracle : String → Option HNData) (now : Int) (c : Company) :
    Company × Nat :=
  if hnSkip force now c then (c, 0)
  else
    match oracle c.name with
    | some d =>
      ({ c with hn_mentions := some d.count, hn_top_story := some d.topStory,
                hn_enriched_at := some now }, 1)
    | none => (c, 1)

/-- Model of `enrichHN(companies, force)` (lines 77-107): the updated collection and
the number of external calls performed. -/
def enrichHN (cs : List Company) (force : Bool) (oracle : String → Option HNData)
    (now : Int) : List Company × Nat :=
  ((cs.map (hnStep force oracle now)).map Prod.fst,
   ((cs.map (hnStep force oracle now)).map Prod.snd).sum)

end Signals

namespace Leadership

/-! ### Leadership enrichment (`enrich-leadership.js`) -/

/-- A `{role, name}` pair.  Absent `role`/`name` JSON fields are falsy in the
source's checks exactly like empty strings, so both are modelled as `""`. -/
structure Leader where
  role : String
  name : String
deriving DecidableEq

/-- A provider's parsed JSON response: company name to proposed leaders;
`none` models a missing key or a non-array value (`Array.isArray` fails). -/
abbrev ParsedResponse := String → Option (List Leader)

/-- The vote-table key `` `${l.role}::${l.name.toLowerCase().trim()}` ``. -/
def voteKey (role nm : String) : String :=
  role ++ "::" ++ trimStr (lowerStr nm)

/-- The vote key of a leader entry. -/
def leaderKey (l : Leader) : String :=
  voteKey l.role l.name

/-- The check `!l.role || !l.name` is the skip condition; a vote is counted otherwise. -/
def validLeader (l : Leader) : Bool :=
  l.role != "" && l.name != ""

/-- An entry of the `votes` table of `mergeLeadership`: insertion-ordered,
keyed by `key`, remembering the first-seen `role`/`name` casing. -/
structure VoteEntry where
  key : String
  role : String
  name : String
  count : Nat
  providers : List String
deriving DecidableEq

/-- Record one vote in the table: bump the existing entry for the key or
append a fresh one (JS object insertion order). -/
def addVote (votes : List VoteEntry) (provider : String) (l : Leader) : List VoteEntry :=
  if votes.any (fun v => v.key == leaderKey l) then
    votes.map (fun v =>
      if v.key == leaderKey l then
        { v with count := v.count + 1, providers := v.providers ++ [provider] }
      else v)
  else
    votes ++ [{ key := leaderKey l, role := l.role, name := l.name, count := 1,
                providers := [provider] }]

/-- The vote-collection loop of `mergeLeadership` (lines 173-186). -/
def collectVotes (results : List (String × ParsedResponse)) (companyName : String) :
    List VoteEntry :=
  results.foldl (fun votes pr =>
    match pr.2 companyName with
    | some leaders =>
      leaders.foldl (fun vs l => if validLeader l then addVote vs pr.1 l else vs) votes
    | none => votes) []

/-- The threshold `totalProviders > 1 ? 2 : 1` (lines 188-189). -/
def consensusThreshold (results : List (String × ParsedResponse)) : Nat :=
  if 1 < results.length then 2 else 1

/-- The comparator `(a, b) => b.count - a.count`: descending vote count. -/
def countDesc (a b : VoteEntry) : Bool :=
  b.count ≤ a.count

/-- Model of `mergeLeadership(resultsByProvider, companyName)` (lines 171-194): keep
entries whose vote count reaches the threshold, sorted by descending count
(`Array.prototype.sort` is stable, as is `mergeSort`), projected back to
`{role, name}`. -/
def mergeLeadership (results : List (String × ParsedResponse)) (companyName : String) :
    List Leader :=
  let votes := collectVotes results companyName
  (((votes.filter (fun v => consensusThreshold results ≤ v.count)).mergeSort countDesc).map
    (fun v => { role := v.role, name := v.name }))

/-- Total number of votes a key received across all responding providers,
counting each occurrence in a provider's list separately (what the code's
`count` field tallies). -/
def pairVotes (results : List (String × ParsedResponse)) (companyName : String)
    (key : String) : Nat :=
  (results.map (fun pr =>
    ((pr.2 companyName).getD []).countP (fun l => validLeader l && (leaderKey l == key)))).sum

/-- Number of *distinct providers* that proposed at least one pair with the
given key (what the claim's "votes from at least 2 distinct providers"
denotes). -/
def distinctProviderVotes (results : List (String × ParsedResponse)) (companyName : String)
    (key : String) : Nat :=
  results.countP (fun pr =>
    ((pr.2 companyName).getD []).any (fun l => validLeader l && (leaderKey l == key)))

/-- One vote-recording step over the flattened `(provider, leader)` stream. -/
def voteStep (vs : List VoteEntry) (pl : String × Leader) : List VoteEntry :=
  addVote vs pl.1 pl.2

/-- The vote table built from a flattened `(provider, leader)` stream. -/
def buildVotes (l : List (String × Leader)) : List VoteEntry :=
  l.foldl voteStep []

/-- The stream of valid `(provider, leader)` votes for one company, in
iteration order. -/
def flatVotes (results : List (String × ParsedResponse)) (companyName : String) :
    List (String × Leader) :=
  results.flatMap (fun pr =>
    (((pr.2 companyName).getD []).filter validLeader).map (fun l => (pr.1, l)))

/-- Number of votes in a flattened stream carrying a given key. -/
def keyCount (l : List (String × Leader)) (key : String) : Nat :=
  l.countP (fun pl => leaderKey pl.2 == key)

/-- The spec's consensus scenario: providers A and B propose
`{CEO, "Jane Doe"}`, provider C proposes `{CEO, "John Roe"}`. -/
def exampleThreeProviders : List (String × ParsedResponse) :=
  [("a", fun _ => some [{ role := "CEO", name := "Jane Doe" }]),
   ("b", fun _ => some [{ role := "CEO", name := "Jane Doe" }]),
   ("c", fun _ => some [{ role := "CEO", name := "John Roe" }])]

/-- Two responding providers where the first lists the same pair twice and
the second proposes nothing. -/
def exDupProviders : List (String × ParsedResponse) :=
  [("a", fun _ => some [{ role := "CEO", name := "Jane" },
                        { role := "CEO", name := "Jane" }]),
   ("b", fun _ => some [])]

/-- A company record as touched by the leadership pass. -/
structure Company where
  name : String
  product : Option String := none
  ceo : Option String := none
  leadership : Option (List Leader) := none
  leadershipEnrichedAt : Option String := none
  leadershipSource : Option String := none
deriving DecidableEq

/-- The filter `!c.leadership || c.leadership.length === 0`: the filter selecting
records that still need enrichment (and the guard of the fallback path). -/
def needsLeadership (c : Company) : Bool :=
  match c.leadership with
  | none => true
  | some l => l.isEmpty

/-- Run configuration: `--model=all` consensus mode or a single provider,
the provider names with credentials, the `--force` / `--dry-run` flags and
the timestamp written into `leadershipEnrichedAt`. -/
structure Config where
  isAll : Bool
  modelArg : String
  providers : List String
  force : Bool
  dryRun : Bool
  now : String

/-- Constant `BATCH_SIZE = 20`. -/
def BATCH_SIZE : Nat := 20

/-- The per-batch provider oracle: for batch number `b`, provider `p`,
`oracle b p` is the parsed response, `none` modelling a failed call or an
unparseable response. -/
abbrev ProviderOracle := Nat → String → Option ParsedResponse

/-- Successful provider results for a batch, in provider order (the `results`
object after the parallel calls, lines 255-271). -/
def batchResults (cfg : Config) (oracle : ProviderOracle) (b : Nat) :
    List (String × ParsedResponse) :=
  cfg.providers.filterMap (fun p => (oracle b p).map (fun parsed => (p, parsed)))

/-- Writing a computed leaders list to a record (lines 300-323): a non-empty
list is stored with its provenance; an empty one falls back to the known-CEO
field when present (tagged `"fallback"`); otherwise the record is untouched. -/
def applyLeaders (cfg : Config) (c : Company) (leaders : List Leader) (src : String) : Company :=
  if !leaders.isEmpty then
    { c with leadership := some leaders, leadershipEnrichedAt := some cfg.now,
             leadershipSource := some src }
  else if truthyStr c.ceo then
    { c with leadership := some [{ role := "CEO", name := c.ceo.getD "" }],
             leadershipEnrichedAt := some cfg.now, leadershipSource := some "fallback" }
  else c

/-- What one batch does to one of its records, given the batch number
(lines 242-323).  In single-provider mode a failed call triggers the batch
fallback of lines 278-290, which writes the known-CEO list and timestamp but
no `leadershipSource` tag. -/
def transformCompany (cfg : Config) (oracle : ProviderOracle) (b : Nat) (c : Company) :
    Company :=
  if cfg.dryRun then c
  else if cfg.isAll then
    let results := batchResults cfg oracle b
    if results.isEmpty then c
    else applyLeaders cfg c (mergeLeadership results c.name) "consensus"
  else
    match cfg.providers with
    | [] => c
    | p :: _ =>
      match oracle b p with
      | none =>
        if truthyStr c.ceo && needsLeadership c then
          { c with leadership := some [{ role := "CEO", name := c.ceo.getD "" }],
                   leadershipEnrichedAt := some cfg.now }
        else c
      | some parsed =>
        let leaders : List Leader :=
          match parsed c.name with
          | some lst => (lst.filter validLeader).map (fun l => { role := l.role, name := l.name })
          | none => []
        applyLeaders cfg c leaders cfg.modelArg

/-- Indices of `needsEnrichment` within the collection: every record when
forcing, otherwise the records with absent or empty leadership
(lines 223-225). -/
def needsIndices (cfg : Config) (cs : List Company) : List Nat :=
  (List.range cs.length).filter (fun i =>
    cfg.force || ((cs[i]?.map needsLeadership).getD false))

/-- Position of `i` in the list of selected indices (used to derive the
record's batch number). -/
def posIn (l : List Nat) (i : Nat) : Option Nat :=
  match l with
  | [] => none
  | a :: rest => if a = i then some 0 else (posIn rest i).map (fun j => j + 1)

/-- Model of `enrichLeadership(companies, modelArg)` (lines 198-330) as a collection
transformation: the `j`-th record of `needsEnrichment` belongs to batch
`j / BATCH_SIZE` and is rewritten by that batch; all other records are
untouched. -/
def enrichLeadership (cfg : Config) (oracle : ProviderOracle) (cs : List Company) :
    List Company :=
  let needs := needsIndices cfg cs
  cs.enum.map (fun ic =>
    match posIn needs ic.1 with
    | none => ic.2
    | some j => transformCompany cfg oracle (j / BATCH_SIZE) ic.2)

end Leadership

/-! ## Claims -/

/-- C10: applying a `"milestone"` event — matched or not, at any confidence —
returns no change result (`null`) and leaves every record of the collection
unchanged. -/
theorem applyEvent_milestone_noop (cs : List Updater.Company) (e : Updater.Event)
    (clock : Updater.Clock) (h : e.type = "milestone") :
    Updater.applyEvent cs e clock = (none, cs) := by
  unfold Updater.applyEvent
  rw [h]
  simp

/-- Witness for C10 at a concrete milestone event. -/
theorem applyEvent_milestone_noop_witness :
    ({ type := "milestone", company := "Acme" } : Updater.Event).type = "milestone" ∧
    Updater.applyEvent [{ name := "Acme" }] { type := "milestone", company := "Acme" }
        { today := "2025-01-02", year := "2025", yearN := 2025, ym := "2025-01" } =
      (none, [{ name := "Acme" }]) :=
  ⟨rfl, applyEvent_milestone_noop [{ name := "Acme" }] _ _ rfl⟩

/-- C2 counterexample: `fetchCompaniesJson` (the load) returns only the
content, and a save that runs after the store has advanced from sha 0 to
sha 1 *succeeds* (the save re-fetches the current sha), where the claim
requires it to fail with `Conflict`. -/
theorem updateCompaniesJson_stale_load_cex :
    GitStore.fetchCompaniesJson { content := "A", sha := 0 } = "A" ∧
    ({ content := "B", sha := 1 } : GitStore.GitState).sha ≠
      ({ content := "A", sha := 0 } : GitStore.GitState).sha ∧
    GitStore.updateCompaniesJson { content := "B", sha := 1 } { content := "B", sha := 1 } "C" =
      Except.ok { content := "C", sha := 2 } :=
  ⟨rfl, by decide, rfl⟩

/-- C2 (amended): the write supplies the version token obtained by `save`'s
own `GET` immediately before the `PUT`, not the token of the most recent
`load()`; the save succeeds exactly when the store has not advanced between
that internal `GET` and the `PUT` (in particular a store advance after
`load()` does not cause `Conflict`). -/
theorem updateCompaniesJson_fresh_sha (getSt putSt : GitStore.GitState) (c : String) :
    (GitStore.updateCompaniesJson getSt putSt c =
        Except.ok { content := c, sha := putSt.sha + 1 } ↔ getSt.sha = putSt.sha) ∧
    (GitStore.updateCompaniesJson getSt putSt c = Except.error GitStore.GitError.conflict ↔
        getSt.sha ≠ putSt.sha) := by
  unfold GitStore.updateCompaniesJson GitStore.putContents
  by_cases h : getSt.sha = putSt.sha <;> simp [h]

/-- C5 counterexample: a record whose `hn_mentions` property is absent while
its `hn_enriched_at` timestamp is present and fresh is due (the code also
checks presence of the value field), although the claim's condition — force
unset, timestamp present, and not older than the TTL — says it must not be. -/
theorem isDue_value_field_cex :
    Signals.isDue { name := "X", hn_enriched_at := some 0 } 7 false 0 = true ∧
    ({ name := "X", hn_enriched_at := some 0 } : Signals.Company).hn_mentions = none ∧
    ({ name := "X", hn_enriched_at := some 0 } : Signals.Company).hn_enriched_at = some 0 ∧
    ¬((0 : Int) - 0 > (7 : Int) * 24 * 60 * 60 * 1000) := by
  decide

/-- C5 (amended): `isDue(record, source, ttl, force)` is true iff `force` is
set, or the source's *value* field is absent, or the source's timestamp field
is absent, or `now - timestamp` exceeds `ttlDays` days; with `force` set it
is true regardless. -/
theorem isDue_characterization (c : Signals.Company) (ttl : Nat) (force : Bool) (now : Int) :
    Signals.isDue c ttl force now = true ↔
      (force = true ∨ c.hn_mentions = none ∨ c.hn_enriched_at = none ∨
        ∃ t, c.hn_enriched_at = some t ∧ now - t > (ttl : Int) * 24 * 60 * 60 * 1000) := by
  unfold Signals.isDue Signals.isStale
  cases force <;> cases hm : c.hn_mentions <;> cases ht : c.hn_enriched_at <;>
    simp [hm, ht]

/-- C6 (amended): the derived funding value parses the *first* (not trailing)
`<number><M|B|T>` occurrence, case-insensitively, with multipliers M=1e6,
B=1e9, T=1e12; on the claim's inputs the values are exactly as stated, and
`"250m"` parses as `"$250M"` does. -/
theorem parseFundingValue_examples :
    Updater.parseFundingValue "$250M" = some 250000000 ∧
    Updater.parseFundingValue "$1.2B" = some 1200000000 ∧
    Updater.parseFundingValue "$3T" = some 3000000000000 ∧
    Updater.parseFundingValue "250m" = Updater.parseFundingValue "$250M" := by
  refine ⟨?_, ?_, ?_, ?_⟩
  · have h : Updater.parseAmountParts "$250M" = some (250, 0, 6) := by decide
    rw [Updater.parseFundingValue, h]
    norm_num
  · have h : Updater.parseAmountParts "$1.2B" = some (12, 1, 9) := by decide
    rw [Updater.parseFundingValue, h]
    norm_num
  · have h : Updater.parseAmountParts "$3T" = some (3, 0, 12) := by decide
    rw [Updater.parseFundingValue, h]
    norm_num
  · have h : Updater.parseAmountParts "250m" = Updater.parseAmountParts "$250M" := by decide
    rw [Updater.parseFundingValue, Updater.parseFundingValue, h]

/-- C6 counterexample: on `"$5M $10B"` the code derives the value of the
*first* match, `5e6`, while the trailing `<number><M|B|T>` suffix of the
string denotes `1e10` — so the value is not derived from a trailing
suffix. -/
theorem parseFundingValue_not_trailing_cex :
    Updater.parseFundingValue "$5M $10B" = some 5000000 ∧
    Updater.specTrailingValue "$5M $10B" = some 10000000000 ∧
    Updater.parseFundingValue "$5M $10B" ≠ Updater.specTrailingValue "$5M $10B" := by
  have h1 : Updater.parseFundingValue "$5M $10B" = some 5000000 := by
    have h : Updater.parseAmountParts "$5M $10B" = some (5, 0, 6) := by decide
    rw [Updater.parseFundingValue, h]
    norm_num
  have h2 : Updater.specTrailingValue "$5M $10B" = some 10000000000 := by
    have h : Updater.specTrailingValue "$5M $10B" =
        some ((10 : ℚ) / 10 ^ 0 * 10 ^ 9) := by rfl
    rw [h]
    norm_num
  refine ⟨h1, h2, ?_⟩
  rw [h1, h2]
  intro hc
  have := Option.some.inj hc
  norm_num at this

/-- The second run of `enrichHN` performs no call for a record whose first
run either skipped it or (with a successful fetch) marked it at `now`. -/
theorem hnStep_twice_zero (oracle : String → Option Signals.HNData) (now : Int)
    (c : Signals.Company) (h : (oracle c.name).isSome) :
    (Signals.hnStep false oracle now
      (Signals.hnStep false oracle now c).1).2 = 0 := by
  by_cases hs : Signals.hnSkip false now c = true
  · have h1 : Signals.hnStep false oracle now c = (c, 0) := by
      unfold Signals.hnStep
      rw [if_pos hs]
    have h2 : (Signals.hnStep false oracle now c).1 = c := by rw [h1]
    rw [h2, h1]
  · rcases ho : oracle c.name with _ | d
    · rw [ho] at h
      simp at h
    · have h1 : Signals.hnStep false oracle now c =
          ({ c with hn_mentions := some d.count, hn_top_story := some d.topStory,
                    hn_enriched_at := some now }, 1) := by
        unfold Signals.hnStep
        rw [if_neg hs, ho]
      have h2 : Signals.hnSkip false now
          { c with hn_mentions := some d.count, hn_top_story := some d.topStory,
                   hn_enriched_at := some now } = true := by
        unfold Signals.hnSkip Signals.isStale
        simp only [Bool.not_false, Bool.true_and, Option.isSome_some, Bool.not_eq_true']
        simp only [decide_eq_false_iff_not]
        unfold Signals.STALE_DAYS
        omega
      have h3 : (Signals.hnStep false oracle now c).1 =
          { c with hn_mentions := some d.count, hn_top_story := some d.topStory,
                   hn_enriched_at := some now } := by rw [h1]
      rw [h3]
      unfold Signals.hnStep
      rw [if_pos h2]

/-- C8 (amended): when every external fetch of the first run succeeds,
running the same source again immediately (same `now`, `force = false`)
performs zero external calls — every record then fails the staleness check.
(A record whose fetch *failed* is left unmarked by the code and is retried.) -/
theorem enrichHN_second_run_no_calls (cs : List Signals.Company)
    (oracle : String → Option Signals.HNData) (now : Int)
    (h : ∀ nm, (oracle nm).isSome) :
    (Signals.enrichHN (Signals.enrichHN cs false oracle now).1 false oracle now).2 = 0 := by
  unfold Signals.enrichHN
  refine List.sum_eq_zero ?_
  intro x hx
  simp only [List.map_map, List.mem_map, Function.comp] at hx
  rcases hx with ⟨c, _, rfl⟩
  exact hnStep_twice_zero oracle now c (h c.name)

/-- Witness for C8 (amended) with one record and a total oracle. -/
theorem enrichHN_second_run_no_calls_witness :
    (∀ nm : String, ((fun _ => some { count := 0, topStory := none } :
        String → Option Signals.HNData) nm).isSome) ∧
    (Signals.enrichHN
      (Signals.enrichHN [{ name := "X" }] false
        (fun _ => some { count := 0, topStory := none }) 0).1 false
      (fun _ => some { count := 0, topStory := none }) 0).2 = 0 :=
  ⟨fun _ => rfl,
   enrichHN_second_run_no_calls [{ name := "X" }] _ 0 (fun _ => rfl)⟩

/-- The id allocated when inserting a company: the maximum existing id
plus one. -/
theorem newCompanyFrom_id (cs : List Updater.Company) (e : Updater.Event)
    (clock : Updater.Clock) :
    (Updater.newCompanyFrom cs e clock).id = ((cs.map (fun c => c.id)).max?).getD 0 + 1 := by
  unfold Updater.newCompanyFrom
  repeat' split
  all_goals rfl

/-- C3: a `funding` event whose company name matches no record
(case-insensitively) never creates a record unless its confidence is
`"high"`; with `"high"` it appends exactly one new record whose id is
`max(existing ids) + 1`, leaving every existing record unchanged. -/
theorem applyEvent_insert_gating (cs : List Updater.Company) (e : Updater.Event)
    (clock : Updater.Clock) (hne : cs ≠ [])
    (hnomatch : ∀ c ∈ cs, lowerStr c.name ≠ lowerStr e.company)
    (hfund : e.type = "funding") :
    (e.confidence ≠ "high" → Updater.applyEvent cs e clock = (none, cs)) ∧
    (e.confidence = "high" →
      ∃ m, (cs.map (fun c => c.id)).max? = some m ∧
        Updater.applyEvent cs e clock =
          (some "added", cs ++ [Updater.newCompanyFrom cs e clock]) ∧
        (Updater.newCompanyFrom cs e clock).id = m + 1) := by
  have hfind : cs.find? (fun c => lowerStr c.name == lowerStr e.company) = none :=
    List.find?_eq_none.mpr (fun x hx => by simp [hnomatch x hx])
  obtain ⟨m, hm⟩ : ∃ m, (cs.map (fun c => c.id)).max? = some m := by
    rcases hmax : (cs.map (fun c => c.id)).max? with _ | m
    · rw [List.max?_eq_none_iff] at hmax
      exact absurd (List.map_eq_nil_iff.mp hmax) hne
    · exact ⟨m, hmax⟩
  constructor
  · intro hconf
    unfold Updater.applyEvent
    simp [hfind, hfund, hconf]
  · intro hconf
    refine ⟨m, hm, ?_, ?_⟩
    · unfold Updater.applyEvent
      simp [hfind, hfund, hconf]
    · rw [newCompanyFrom_id, hm]
      rfl

/-- Witness for C3: inserting into a one-record collection. -/
theorem applyEvent_insert_gating_witness :
    ([{ id := 4, name := "Acme" }] : List Updater.Company) ≠ [] ∧
    (∀ c ∈ ([{ id := 4, name := "Acme" }] : List Updater.Company),
      lowerStr c.name ≠ lowerStr "Newco") ∧
    ({ type := "funding", company := "Newco", confidence := "high" } : Updater.Event).type =
      "funding" ∧
    (({ type := "funding", company := "Newco", confidence := "high" } : Updater.Event).confidence ≠
        "high" →
      Updater.applyEvent [{ id := 4, name := "Acme" }]
          { type := "funding", company := "Newco", confidence := "high" }
          { today := "2025-01-02", year := "2025", yearN := 2025, ym := "2025-01" } =
        (none, [{ id := 4, name := "Acme" }])) ∧
    (({ type := "funding", company := "Newco", confidence := "high" } : Updater.Event).confidence =
        "high" →
      ∃ m, (([{ id := 4, name := "Acme" }] : List Updater.Company).map (fun c => c.id)).max? =
          some m ∧
        Updater.applyEvent [{ id := 4, name := "Acme" }]
            { type := "funding", company := "Newco", confidence := "high" }
            { today := "2025-01-02", year := "2025", yearN := 2025, ym := "2025-01" } =
          (some "added",
            [{ id := 4, name := "Acme" }] ++
              [Updater.newCompanyFrom [{ id := 4, name := "Acme" }]
                { type := "funding", company := "Newco", confidence := "high" }
                { today := "2025-01-02", year := "2025", yearN := 2025, ym := "2025-01" }]) ∧
        (Updater.newCompanyFrom [{ id := 4, name := "Acme" }]
            { type := "funding", company := "Newco", confidence := "high" }
            { today := "2025-01-02", year := "2025", yearN := 2025, ym := "2025-01" }).id =
          m + 1) :=
  ⟨by decide, by decide, rfl,
   (applyEvent_insert_gating _ _ _ (by decide) (by decide) rfl).1,
   (applyEvent_insert_gating _ _ _ (by decide) (by decide) rfl).2⟩

/-- Totality of `lexLe`. -/
theorem lexLe_total (xs ys : List Char) : (lexLe xs ys || lexLe ys xs) = true := by
  induction xs generalizing ys with
  | nil => simp [lexLe]
  | cons a as ih =>
    cases ys with
    | nil => simp [lexLe]
    | cons b bs =>
      simp only [lexLe]
      rcases Nat.lt_trichotomy a.toNat b.toNat with hlt | heq | hgt
      · simp [hlt]
      · have h1 : ¬a.toNat < b.toNat := by omega
        have h2 : ¬b.toNat < a.toNat := by omega
        simpa [h1, h2] using ih bs
      · have h1 : ¬a.toNat < b.toNat := by omega
        simp [h1, hgt]

/-- Transitivity of `lexLe`. -/
theorem lexLe_trans (xs ys zs : List Char) (h1 : lexLe xs ys = true)
    (h2 : lexLe ys zs = true) : lexLe xs zs = true := by
  induction xs generalizing ys zs with
  | nil => simp [lexLe]
  | cons a as ih =>
    cases ys with
    | nil => simp [lexLe] at h1
    | cons b bs =>
      cases zs with
      | nil => simp [lexLe] at h2
      | cons c cs =>
        simp only [lexLe] at h1 h2 ⊢
        split_ifs at h1 h2 ⊢ <;>
          first
            | rfl
            | omega
            | (exact ih bs cs h1 h2)

/-- Re-indexing does not change the (lowercased) names. -/
theorem reindex_names_aux (l : List Updater.Company) (n : Nat) :
    ((List.enumFrom n l).map (fun ic => { ic.2 with id := (ic.1 : Int) + 1 })).map
        (fun c => c.name) = l.map (fun c => c.name) := by
  induction l generalizing n with
  | nil => rfl
  | cons c rest ih =>
    simp only [List.enumFrom, List.map_cons]
    rw [ih]

/-- The ids written by re-indexing are the successive positions plus one. -/
theorem reindex_ids_aux (l : List Updater.Company) (n : Nat) :
    ((List.enumFrom n l).map (fun ic => { ic.2 with id := (ic.1 : Int) + 1 })).map
        (fun c => c.id) = (List.range' n l.length).map (fun i : Nat => (i : Int) + 1) := by
  induction l generalizing n with
  | nil => rfl
  | cons c rest ih =>
    simp only [List.enumFrom, List.map_cons, List.length_cons, List.range']
    rw [ih]

/-- C4: after a daily-update run that applied at least one change, the
collection is sorted by lowercased name and every record's id equals its
1-based position in that order (so ids are exactly `1..N`). -/
theorem runDailyUpdate_sorted_reindexed (cs : List Updater.Company)
    (events : List Updater.Event) (clock : Updater.Clock)
    (h : (Updater.applyEvents cs events clock).2 ≠ []) :
    ((Updater.runDailyUpdate cs events clock).map (fun c => (lowerStr c.name).data)).Pairwise
        (fun a b => lexLe a b = true) ∧
    (Updater.runDailyUpdate cs events clock).map (fun c => c.id) =
      (List.range (Updater.runDailyUpdate cs events clock).length).map
        (fun i : Nat => (i : Int) + 1) := by
  have hev : events.isEmpty = false := by
    rcases events with _ | ⟨e, rest⟩
    · exact absurd rfl h
    · rfl
  have h2 : (Updater.applyEvents cs events clock).2.isEmpty = false := by
    rcases hx : (Updater.applyEvents cs events clock).2 with _ | _
    · exact absurd hx h
    · rfl
  have hru : Updater.runDailyUpdate cs events clock =
      Updater.reindex (Updater.sortByName (Updater.applyEvents cs events clock).1) := by
    unfold Updater.runDailyUpdate
    rw [hev]
    simp only [Bool.false_eq_true, if_false, h2]
  rw [hru]
  constructor
  · have hnames : (Updater.reindex (Updater.sortByName
        (Updater.applyEvents cs events clock).1)).map (fun c => (lowerStr c.name).data) =
        (Updater.sortByName (Updater.applyEvents cs events clock).1).map
          (fun c => (lowerStr c.name).data) := by
      have hb := reindex_names_aux (Updater.sortByName (Updater.applyEvents cs events clock).1) 0
      have hc := congrArg (fun l => l.map (fun nm => (lowerStr nm).data)) hb
      simpa [Updater.reindex, List.enum_eq_enumFrom, List.map_map, Function.comp] using hc
    rw [hnames]
    have htrans : ∀ a b c : Updater.Company,
        lexLe (lowerStr a.name).data (lowerStr b.name).data = true →
        lexLe (lowerStr b.name).data (lowerStr c.name).data = true →
        lexLe (lowerStr a.name).data (lowerStr c.name).data = true :=
      fun a b c hab hbc => lexLe_trans _ _ _ hab hbc
    have htotal : ∀ a b : Updater.Company,
        (lexLe (lowerStr a.name).data (lowerStr b.name).data ||
          lexLe (lowerStr b.name).data (lowerStr a.name).data) = true :=
      fun a b => lexLe_total _ _
    have hsort := List.sorted_mergeSort htrans htotal
      ((Updater.applyEvents cs events clock).1)
    exact List.pairwise_map.mpr hsort
  · have hlen : (Updater.sortByName (Updater.applyEvents cs events clock).1).length =
        (Updater.reindex (Updater.sortByName (Updater.applyEvents cs events clock).1)).length := by
      simp [Updater.reindex, List.enum_eq_enumFrom]
    have hb := reindex_ids_aux (Updater.sortByName (Updater.applyEvents cs events clock).1) 0
    rw [← List.range_eq_range'] at hb
    rw [hlen] at hb
    simpa [Updater.reindex, List.enum_eq_enumFrom] using hb

/-- Witness for C4: an `ipo` event applied to a two-record collection. -/
theorem runDailyUpdate_sorted_reindexed_witness :
    (Updater.applyEvents [{ id := 1, name := "beta" }, { id := 2, name := "Alpha" }]
        [{ type := "ipo", company := "Beta", confidence := "high" }]
        { today := "2025-01-02", year := "2025", yearN := 2025, ym := "2025-01" }).2 ≠ [] ∧
    (((Updater.runDailyUpdate [{ id := 1, name := "beta" }, { id := 2, name := "Alpha" }]
        [{ type := "ipo", company := "Beta", confidence := "high" }]
        { today := "2025-01-02", year := "2025", yearN := 2025, ym := "2025-01" }).map
          (fun c => (lowerStr c.name).data)).Pairwise (fun a b => lexLe a b = true) ∧
      (Updater.runDailyUpdate [{ id := 1, name := "beta" }, { id := 2, name := "Alpha" }]
        [{ type := "ipo", company := "Beta", confidence := "high" }]
        { today := "2025-01-02", year := "2025", yearN := 2025, ym := "2025-01" }).map
          (fun c => c.id) =
        (List.range (Updater.runDailyUpdate [{ id := 1, name := "beta" },
            { id := 2, name := "Alpha" }]
          [{ type := "ipo", company := "Beta", confidence := "high" }]
          { today := "2025-01-02", year := "2025", yearN := 2025, ym := "2025-01" }).length).map
          (fun i : Nat => (i : Int) + 1)) :=
  ⟨by decide, runDailyUpdate_sorted_reindexed _ _ _ (by decide)⟩

/-- C8 counterexample: with a single never-attempted record and an oracle
whose fetch fails, the first run writes neither the no-result sentinel nor a
timestamp, so the immediate second run performs one external call, not
zero. -/
theorem enrichHN_failed_fetch_retried_cex :
    (Signals.enrichHN (Signals.enrichHN [{ name := "X" }] false (fun _ => none) 0).1
        false (fun _ => none) 0).2 = 1 ∧
    (Signals.enrichHN [{ name := "X" }] false (fun _ => none) 0).1 = [{ name := "X" }] := by
  decide


/-- The function `posIn` finds no position exactly for absent elements. -/
theorem posIn_eq_none (l : List Nat) (i : Nat) :
    Leadership.posIn l i = none ↔ i ∉ l := by
  induction l with
  | nil => simp [Leadership.posIn]
  | cons a rest ih =>
    simp only [Leadership.posIn]
    by_cases h : a = i
    · simp [h]
    · simp only [if_neg h, Option.map_eq_none', ih, List.mem_cons]
      constructor
      · intro hni hor
        rcases hor with hor | hor
        · exact h hor.symm
        · exact hni hor
      · intro hni
        exact fun hmem => hni (Or.inr hmem)

/-- Index-wise view of `enrichLeadership`: the record at `i` is transformed
by its batch when `i` is selected, untouched otherwise. -/
theorem enrichLeadership_getElem (cfg : Leadership.Config)
    (oracle : Leadership.ProviderOracle) (cs : List Leadership.Company) (i : Nat) :
    (Leadership.enrichLeadership cfg oracle cs)[i]? =
      (cs[i]?).map (fun c =>
        match Leadership.posIn (Leadership.needsIndices cfg cs) i with
        | none => c
        | some j => Leadership.transformCompany cfg oracle (j / Leadership.BATCH_SIZE) c) := by
  unfold Leadership.enrichLeadership
  rw [List.getElem?_map, List.getElem?_enum]
  cases cs[i]? <;> rfl

/-- Membership in the selected indices. -/
theorem mem_needsIndices (cfg : Leadership.Config) (cs : List Leadership.Company) (i : Nat) :
    i ∈ Leadership.needsIndices cfg cs ↔
      i < cs.length ∧
        (cfg.force = true ∨ (cs[i]?.map Leadership.needsLeadership).getD false = true) := by
  unfold Leadership.needsIndices
  rw [List.mem_filter, List.mem_range]
  simp [Bool.or_eq_true]

/-- The write-back `applyLeaders` either leaves the leadership field alone or stores a
non-empty list. -/
theorem applyLeaders_leadership (cfg : Leadership.Config) (c : Leadership.Company)
    (leaders : List Leadership.Leader) (src : String) :
    (Leadership.applyLeaders cfg c leaders src).leadership = c.leadership ∨
      ∃ l, l ≠ [] ∧ (Leadership.applyLeaders cfg c leaders src).leadership = some l := by
  rcases hl : leaders with _ | ⟨x, xs⟩
  · unfold Leadership.applyLeaders
    by_cases htr : truthyStr c.ceo = true
    · right
      refine ⟨[{ role := "CEO", name := c.ceo.getD "" }], by simp, ?_⟩
      simp [htr]
    · left
      simp [htr]
  · right
    refine ⟨x :: xs, by simp, ?_⟩
    unfold Leadership.applyLeaders
    simp

/-- A batch transformation either leaves the leadership field alone or
stores a non-empty list. -/
theorem transformCompany_leadership (cfg : Leadership.Config)
    (oracle : Leadership.ProviderOracle) (b : Nat) (c : Leadership.Company) :
    (Leadership.transformCompany cfg oracle b c).leadership = c.leadership ∨
      ∃ l, l ≠ [] ∧ (Leadership.transformCompany cfg oracle b c).leadership = some l := by
  unfold Leadership.transformCompany
  dsimp only
  repeat' split
  all_goals
    first
      | (left; rfl)
      | (exact applyLeaders_leadership _ _ _ _)
      | (right; exact ⟨[{ role := "CEO", name := c.ceo.getD "" }], by simp, rfl⟩)

/-- C7: after any leadership-enrichment pass each record's leadership field
is either unchanged or a non-empty list (so an absent-or-non-empty invariant
is preserved and the pass never writes an empty list), and without `--force`
a record whose leadership is already non-empty is left entirely unchanged,
even when the pass finds nothing. -/
theorem enrichLeadership_leadership_invariant (cfg : Leadership.Config)
    (oracle : Leadership.ProviderOracle) (cs : List Leadership.Company) (i : Nat) :
    ((Leadership.enrichLeadership cfg oracle cs)[i]?.map (fun c => c.leadership) =
        cs[i]?.map (fun c => c.leadership) ∨
      ∃ l, l ≠ [] ∧
        (Leadership.enrichLeadership cfg oracle cs)[i]?.map (fun c => c.leadership) =
          some (some l)) ∧
    (∀ c l, cfg.force = false → cs[i]? = some c → c.leadership = some l → l ≠ [] →
      (Leadership.enrichLeadership cfg oracle cs)[i]? = some c) := by
  constructor
  · rw [enrichLeadership_getElem]
    rcases hc : cs[i]? with _ | c
    · left
      rfl
    · rcases hp : Leadership.posIn (Leadership.needsIndices cfg cs) i with _ | j
      · left
        rfl
      · simp only [Option.map_some']
        rcases transformCompany_leadership cfg oracle (j / Leadership.BATCH_SIZE) c with
          h | ⟨l, hl, h⟩
        · left
          simp [h]
        · right
          exact ⟨l, hl, by simp [h]⟩
  · intro c l hf hc hl hlne
    rw [enrichLeadership_getElem, hc]
    have hni : i ∉ Leadership.needsIndices cfg cs := by
      rw [mem_needsIndices]
      rintro ⟨_, hor⟩
      rcases hor with h | h
      · rw [hf] at h
        exact absurd h (by simp)
      · rw [hc] at h
        simp only [Option.map_some', Option.getD_some] at h
        unfold Leadership.needsLeadership at h
        rw [hl] at h
        simp only [] at h
        exact hlne (by simpa using h)
    rw [(posIn_eq_none _ _).mpr hni]
    rfl

/-- Witness for C7: a record with existing non-empty leadership is untouched
by a forceless pass. -/
theorem enrichLeadership_leadership_invariant_witness :
    ({ isAll := false, modelArg := "claude", providers := ["claude"], force := false,
        dryRun := false, now := "T" } : Leadership.Config).force = false ∧
    ([{ name := "A", leadership := some [{ role := "CEO", name := "X" }] }] :
        List Leadership.Company)[0]? =
      some { name := "A", leadership := some [{ role := "CEO", name := "X" }] } ∧
    ({ name := "A", leadership := some [{ role := "CEO", name := "X" }] } :
        Leadership.Company).leadership = some [{ role := "CEO", name := "X" }] ∧
    ([{ role := "CEO", name := "X" }] : List Leadership.Leader) ≠ [] ∧
    (Leadership.enrichLeadership
        { isAll := false, modelArg := "claude", providers := ["claude"], force := false,
          dryRun := false, now := "T" } (fun _ _ => none)
        [{ name := "A", leadership := some [{ role := "CEO", name := "X" }] }])[0]? =
      some { name := "A", leadership := some [{ role := "CEO", name := "X" }] } :=
  ⟨rfl, rfl, rfl, by decide,
   (enrichLeadership_leadership_invariant _ _ _ 0).2 _ _ rfl rfl rfl (by decide)⟩

/-- C9 (amended): in single-provider mode a failed provider call makes every
record of the batch with a known-CEO field and no existing leadership
receive the single-entry known-CEO leadership list and the enrichment
timestamp — but the code writes no `leadershipSource` tag on this path (the
`"fallback"` provenance tag is only written by the per-record fallback of a
*successful* batch). -/
theorem enrichLeadership_single_provider_failure (cfg : Leadership.Config)
    (oracle : Leadership.ProviderOracle) (cs : List Leadership.Company) (i : Nat)
    (hall : cfg.isAll = false) (hdry : cfg.dryRun = false)
    (p : String) (ps : List String) (hp : cfg.providers = p :: ps)
    (hfail : ∀ b, oracle b p = none) :
    (Leadership.enrichLeadership cfg oracle cs)[i]? =
      cs[i]?.map (fun c =>
        if truthyStr c.ceo && Leadership.needsLeadership c then
          { c with leadership := some [{ role := "CEO", name := c.ceo.getD "" }],
                   leadershipEnrichedAt := some cfg.now }
        else c) := by
  rw [enrichLeadership_getElem]
  rcases hc : cs[i]? with _ | c
  · rfl
  · simp only [Option.map_some']
    congr 1
    rcases hpos : Leadership.posIn (Leadership.needsIndices cfg cs) i with _ | j
    · rw [posIn_eq_none] at hpos
      have hlen : i < cs.length := by
        rcases List.getElem?_eq_some.mp hc with ⟨hh, _⟩
        exact hh
      have hnor : ¬(cfg.force = true ∨
          (cs[i]?.map Leadership.needsLeadership).getD false = true) :=
        fun hor => hpos ((mem_needsIndices cfg cs i).mpr ⟨hlen, hor⟩)
      push_neg at hnor
      have hneeds : Leadership.needsLeadership c = false := by
        have h2 := hnor.2
        rw [hc] at h2
        simpa using h2
      simp [hneeds]
    · unfold Leadership.transformCompany
      rw [hdry, hall, hp]
      simp only [Bool.false_eq_true, if_false]
      rw [hfail (j / Leadership.BATCH_SIZE)]

/-- Witness for C9 (amended): a one-record batch with a known CEO and a
failing provider. -/
theorem enrichLeadership_single_provider_failure_witness :
    ({ isAll := false, modelArg := "claude", providers := ["claude"], force := false,
        dryRun := false, now := "T" } : Leadership.Config).isAll = false ∧
    ({ isAll := false, modelArg := "claude", providers := ["claude"], force := false,
        dryRun := false, now := "T" } : Leadership.Config).dryRun = false ∧
    ({ isAll := false, modelArg := "claude", providers := ["claude"], force := false,
        dryRun := false, now := "T" } : Leadership.Config).providers = "claude" :: [] ∧
    (∀ b, (fun (_ : Nat) (_ : String) =>
        (none : Option Leadership.ParsedResponse)) b "claude" = none) ∧
    (Leadership.enrichLeadership
        { isAll := false, modelArg := "claude", providers := ["claude"], force := false,
          dryRun := false, now := "T" } (fun _ _ => none)
        [{ name := "Acme", ceo := some "Ann" }])[0]? =
      ([{ name := "Acme", ceo := some "Ann" }] : List Leadership.Company)[0]?.map (fun c =>
        if truthyStr c.ceo && Leadership.needsLeadership c then
          { c with leadership := some [{ role := "CEO", name := c.ceo.getD "" }],
                   leadershipEnrichedAt := some "T" }
        else c) :=
  ⟨rfl, rfl, rfl, fun _ => rfl,
   enrichLeadership_single_provider_failure _ _ _ 0 rfl rfl "claude" [] rfl (fun _ => rfl)⟩

/-- C9 counterexample: in single-provider mode with a failing call, the
record with a known CEO receives the fallback leadership list and timestamp,
but its `leadershipSource` is left absent — not the `"fallback"` provenance
tag the claim requires. -/
theorem enrichLeadership_fallback_tag_cex :
    (Leadership.enrichLeadership
        { isAll := false, modelArg := "claude", providers := ["claude"], force := false,
          dryRun := false, now := "T" } (fun _ _ => none)
        [{ name := "Acme", ceo := some "Ann" }]).map
        (fun c => (c.leadership, c.leadershipSource)) =
      [(some [{ role := "CEO", name := "Ann" }], none)] ∧
    (none : Option String) ≠ some "fallback" := by
  constructor
  · decide
  · decide

/-- Folding with a guarded step equals folding over the filtered list. -/
theorem foldl_filter_if {α β : Type} (g : β → α → β) (p : α → Bool) (l : List α) (init : β) :
    (l.filter p).foldl g init = l.foldl (fun b a => if p a then g b a else b) init := by
  induction l generalizing init with
  | nil => rfl
  | cons a rest ih =>
    simp only [List.filter_cons, List.foldl_cons]
    by_cases h : p a
    · simp only [h, if_pos, if_true, List.foldl_cons]
      exact ih (g init a)
    · simp only [h, if_neg, Bool.false_eq_true, if_false]
      exact ih init

/-- The nested vote-collection loop equals folding `addVote` over the
flattened vote stream. -/
theorem collectVotes_eq_buildVotes (results : List (String × Leadership.ParsedResponse))
    (companyName : String) :
    Leadership.collectVotes results companyName =
      Leadership.buildVotes (Leadership.flatVotes results companyName) := by
  suffices h : ∀ init : List Leadership.VoteEntry,
      results.foldl (fun votes pr =>
        match pr.2 companyName with
        | some leaders =>
          leaders.foldl (fun vs l =>
            if Leadership.validLeader l then Leadership.addVote vs pr.1 l else vs) votes
        | none => votes) init =
      (Leadership.flatVotes results companyName).foldl Leadership.voteStep init by
    exact h []
  intro init
  induction results generalizing init with
  | nil => rfl
  | cons pr rest ih =>
    rw [List.foldl_cons]
    have hflat : Leadership.flatVotes (pr :: rest) companyName =
        (((pr.2 companyName).getD []).filter Leadership.validLeader).map
            (fun l => (pr.1, l)) ++
          Leadership.flatVotes rest companyName := by
      unfold Leadership.flatVotes
      rw [List.flatMap_cons]
    rw [hflat, List.foldl_append]
    have hchunk : (match pr.2 companyName with
        | some leaders =>
          leaders.foldl (fun vs l =>
            if Leadership.validLeader l then Leadership.addVote vs pr.1 l else vs) init
        | none => init) =
        ((((pr.2 companyName).getD []).filter Leadership.validLeader).map
          (fun l => (pr.1, l))).foldl Leadership.voteStep init := by
      rcases hpr : pr.2 companyName with _ | leaders
      · rfl
      · simp only [Option.getD_some]
        rw [List.foldl_map, ← foldl_filter_if]
        rfl
    rw [hchunk]
    exact ih _

/-- The claim-level vote count equals the key count of the flattened vote
stream. -/
theorem pairVotes_eq_keyCount (results : List (String × Leadership.ParsedResponse))
    (companyName : String) (key : String) :
    Leadership.pairVotes results companyName key =
      Leadership.keyCount (Leadership.flatVotes results companyName) key := by
  induction results with
  | nil => rfl
  | cons pr rest ih =>
    unfold Leadership.pairVotes at *
    unfold Leadership.keyCount at *
    have hflat : Leadership.flatVotes (pr :: rest) companyName =
        (((pr.2 companyName).getD []).filter Leadership.validLeader).map
            (fun l => (pr.1, l)) ++
          Leadership.flatVotes rest companyName := by
      unfold Leadership.flatVotes
      rw [List.flatMap_cons]
    rw [List.map_cons, List.sum_cons, hflat, List.countP_append, ih]
    congr 1
    rw [List.countP_map, List.countP_filter]
    apply List.countP_congr
    intro l _
    simp only [Function.comp]
    rw [Bool.and_comm]

/-- Unfolding `buildVotes` over a snoc. -/
theorem buildVotes_snoc (l : List (String × Leadership.Leader))
    (pl : String × Leadership.Leader) :
    Leadership.buildVotes (l ++ [pl]) =
      Leadership.addVote (Leadership.buildVotes l) pl.1 pl.2 := by
  unfold Leadership.buildVotes
  rw [List.foldl_append]
  rfl

/-- Unfolding `keyCount` over a snoc. -/
theorem keyCount_snoc (l : List (String × Leadership.Leader))
    (pl : String × Leadership.Leader) (key : String) :
    Leadership.keyCount (l ++ [pl]) key =
      Leadership.keyCount l key +
        (if Leadership.leaderKey pl.2 == key then 1 else 0) := by
  unfold Leadership.keyCount
  rw [List.countP_append]
  simp [List.countP_cons]

/-- Invariants of the vote table: stored `role`/`name` reproduce the entry's
key, each entry's count is the number of votes for its key, an entry exists
exactly for voted keys, and keys are pairwise distinct. -/
theorem buildVotes_spec (l : List (String × Leadership.Leader)) :
    (∀ v ∈ Leadership.buildVotes l,
        Leadership.leaderKey { role := v.role, name := v.name } = v.key) ∧
    (∀ v ∈ Leadership.buildVotes l, v.count = Leadership.keyCount l v.key) ∧
    (∀ key, (∃ v ∈ Leadership.buildVotes l, v.key = key) ↔
        0 < Leadership.keyCount l key) ∧
    (Leadership.buildVotes l).Pairwise (fun a b => a.key ≠ b.key) := by
  induction l using List.reverseRecOn with
  | nil =>
    refine ⟨?_, ?_, ?_, ?_⟩ <;> simp [Leadership.buildVotes, Leadership.keyCount]
  | append_singleton l pl ih =>
    obtain ⟨ih1, ih2, ih3, ih4⟩ := ih
    rw [buildVotes_snoc]
    unfold Leadership.addVote
    by_cases hmem :
        (Leadership.buildVotes l).any (fun v => v.key == Leadership.leaderKey pl.2) = true
    · rw [if_pos hmem]
      have hex : ∃ v ∈ Leadership.buildVotes l, v.key = Leadership.leaderKey pl.2 := by
        rcases List.any_eq_true.mp hmem with ⟨v, hv, hveq⟩
        exact ⟨v, hv, by simpa using hveq⟩
      have hkeyf : ∀ v : Leadership.VoteEntry,
          (if v.key == Leadership.leaderKey pl.2 then
            { v with count := v.count + 1, providers := v.providers ++ [pl.1] }
          else v).key = v.key := by
        intro v
        by_cases h : (v.key == Leadership.leaderKey pl.2) = true
        · rw [if_pos h]
        · rw [if_neg h]
      refine ⟨?_, ?_, ?_, ?_⟩
      · intro v' hv'
        rcases List.mem_map.mp hv' with ⟨v, hv, rfl⟩
        by_cases h : (v.key == Leadership.leaderKey pl.2) = true
        · rw [if_pos h]
          exact ih1 v hv
        · rw [if_neg h]
          exact ih1 v hv
      · intro v' hv'
        rcases List.mem_map.mp hv' with ⟨v, hv, rfl⟩
        rw [keyCount_snoc, hkeyf v]
        by_cases h : (v.key == Leadership.leaderKey pl.2) = true
        · rw [if_pos h]
          have hkey : v.key = Leadership.leaderKey pl.2 := by simpa using h
          show v.count + 1 =
            Leadership.keyCount l v.key +
              (if Leadership.leaderKey pl.2 == v.key then 1 else 0)
          rw [ih2 v hv, hkey]
          simp
        · rw [if_neg h]
          have hkey : v.key ≠ Leadership.leaderKey pl.2 := by simpa using h
          have hne : (Leadership.leaderKey pl.2 == v.key) = false :=
            beq_eq_false_iff_ne.mpr (Ne.symm hkey)
          rw [hne]
          simp [ih2 v hv]
      · intro key
        rw [keyCount_snoc]
        constructor
        · rintro ⟨v', hv', hk⟩
          rcases List.mem_map.mp hv' with ⟨v, hv, rfl⟩
          rw [hkeyf v] at hk
          exact Nat.lt_of_lt_of_le ((ih3 key).mp ⟨v, hv, hk⟩) (Nat.le_add_right _ _)
        · intro hpos
          by_cases hkey : (Leadership.leaderKey pl.2 == key) = true
          · have hk : Leadership.leaderKey pl.2 = key := by simpa using hkey
            rcases hex with ⟨v, hv, hveq⟩
            refine ⟨_, List.mem_map.mpr ⟨v, hv, rfl⟩, ?_⟩
            rw [hkeyf v, hveq, hk]
          · rw [if_neg hkey, Nat.add_zero] at hpos
            rcases (ih3 key).mpr hpos with ⟨v, hv, hveq⟩
            refine ⟨_, List.mem_map.mpr ⟨v, hv, rfl⟩, ?_⟩
            rw [hkeyf v]
            exact hveq
      · refine List.pairwise_map.mpr (ih4.imp ?_)
        intro a b hab
        rw [hkeyf a, hkeyf b]
        exact hab
    · rw [if_neg hmem]
      have hnone : ∀ v ∈ Leadership.buildVotes l, v.key ≠ Leadership.leaderKey pl.2 := by
        intro v hv hcontra
        exact hmem (List.any_eq_true.mpr ⟨v, hv, by simp [hcontra]⟩)
      have hcnt0 : Leadership.keyCount l (Leadership.leaderKey pl.2) = 0 := by
        by_contra h
        rcases (ih3 _).mpr (Nat.pos_of_ne_zero h) with ⟨v, hv, hveq⟩
        exact hnone v hv hveq
      refine ⟨?_, ?_, ?_, ?_⟩
      · intro v' hv'
        rcases List.mem_append.mp hv' with h | h
        · exact ih1 v' h
        · rw [List.mem_singleton] at h
          subst h
          rfl
      · intro v' hv'
        rw [keyCount_snoc]
        rcases List.mem_append.mp hv' with h | h
        · have hne : (Leadership.leaderKey pl.2 == v'.key) = false :=
            beq_eq_false_iff_ne.mpr (Ne.symm (hnone v' h))
          rw [hne]
          simp [ih2 v' h]
        · rw [List.mem_singleton] at h
          subst h
          show 1 = Leadership.keyCount l (Leadership.leaderKey pl.2) +
            (if Leadership.leaderKey pl.2 == Leadership.leaderKey pl.2 then 1 else 0)
          rw [hcnt0]
          simp
      · intro key
        rw [keyCount_snoc]
        constructor
        · rintro ⟨v', hv', hk⟩
          rcases List.mem_append.mp hv' with h | h
          · exact Nat.lt_of_lt_of_le ((ih3 key).mp ⟨v', h, hk⟩) (Nat.le_add_right _ _)
          · rw [List.mem_singleton] at h
            subst h
            rw [← hk]
            simp
        · intro hpos
          by_cases hkey : (Leadership.leaderKey pl.2 == key) = true
          · have hk : Leadership.leaderKey pl.2 = key := by simpa using hkey
            exact ⟨_, List.mem_append.mpr (Or.inr (List.mem_singleton.mpr rfl)), hk⟩
          · rw [if_neg hkey, Nat.add_zero] at hpos
            rcases (ih3 key).mpr hpos with ⟨v, hv, hveq⟩
            exact ⟨v, List.mem_append.mpr (Or.inl hv), hveq⟩
      · rw [List.pairwise_append]
        refine ⟨ih4, List.pairwise_singleton _ _, ?_⟩
        intro a ha b hb
        rw [List.mem_singleton] at hb
        subst hb
        exact hnone a ha

/-- Transitivity of `countDesc`. -/
theorem countDesc_trans (a b c : Leadership.VoteEntry) (h1 : Leadership.countDesc a b = true)
    (h2 : Leadership.countDesc b c = true) : Leadership.countDesc a c = true := by
  unfold Leadership.countDesc at *
  simp only [decide_eq_true_eq] at *
  omega

/-- Totality of `countDesc`. -/
theorem countDesc_total (a b : Leadership.VoteEntry) :
    (Leadership.countDesc a b || Leadership.countDesc b a) = true := by
  unfold Leadership.countDesc
  rcases Nat.le_total a.count b.count with h | h <;> simp [h]

/-- C1 (amended): for every set of parsed provider responses and company, a
(role, name) group — keyed by exact role plus case-insensitive/trimmed
name — appears in the merged result iff its total number of votes reaches
the threshold (2 when 2+ providers responded, 1 when fewer), where each
occurrence of the pair in any provider's list counts as one vote, so
duplicate entries within a single provider's list count separately (at least
2 votes need not mean 2 *distinct* providers); the merged pairs are ordered
by descending vote count; and in the spec's scenario — providers A and B
propose `{CEO, "Jane Doe"}`, provider C proposes `{CEO, "John Roe"}` — the
merge keeps Jane Doe and drops John Roe. -/
theorem mergeLeadership_consensus (results : List (String × Leadership.ParsedResponse))
    (companyName : String) :
    (∀ key, (∃ l ∈ Leadership.mergeLeadership results companyName,
        Leadership.leaderKey l = key) ↔
      Leadership.consensusThreshold results ≤
        Leadership.pairVotes results companyName key) ∧
    (Leadership.mergeLeadership results companyName).Pairwise (fun l1 l2 =>
      Leadership.pairVotes results companyName (Leadership.leaderKey l2) ≤
      Leadership.pairVotes results companyName (Leadership.leaderKey l1)) ∧
    ({ role := "CEO", name := "Jane Doe" } ∈
        Leadership.mergeLeadership Leadership.exampleThreeProviders "Acme" ∧
      { role := "CEO", name := "John Roe" } ∉
        Leadership.mergeLeadership Leadership.exampleThreeProviders "Acme") := by
  have hcv := collectVotes_eq_buildVotes results companyName
  obtain ⟨hbv1, hbv2, hbv3, hbv4⟩ :=
    buildVotes_spec (Leadership.flatVotes results companyName)
  have hpv : ∀ key, Leadership.pairVotes results companyName key =
      Leadership.keyCount (Leadership.flatVotes results companyName) key :=
    fun key => pairVotes_eq_keyCount results companyName key
  have hthr : 1 ≤ Leadership.consensusThreshold results := by
    unfold Leadership.consensusThreshold
    split <;> omega
  have hout : Leadership.mergeLeadership results companyName =
      (((Leadership.buildVotes (Leadership.flatVotes results companyName)).filter
          (fun v => Leadership.consensusThreshold results ≤ v.count)).mergeSort
        Leadership.countDesc).map (fun v => { role := v.role, name := v.name }) := by
    unfold Leadership.mergeLeadership
    rw [hcv]
  refine ⟨?_, ?_, ?_⟩
  · intro key
    constructor
    · rintro ⟨x, hx, hkx⟩
      rw [hout] at hx
      rcases List.mem_map.mp hx with ⟨v, hv, rfl⟩
      have hv2 : v ∈ (Leadership.buildVotes (Leadership.flatVotes results companyName)).filter
          (fun v => Leadership.consensusThreshold results ≤ v.count) :=
        ((List.mergeSort_perm _ _).mem_iff).mp hv
      rcases List.mem_filter.mp hv2 with ⟨hvv, hcnt⟩
      have hcnt2 : Leadership.consensusThreshold results ≤ v.count := by simpa using hcnt
      rw [hpv key, ← hkx, hbv1 v hvv, ← hbv2 v hvv]
      exact hcnt2
    · intro hge
      have hpos : 0 < Leadership.keyCount (Leadership.flatVotes results companyName) key := by
        rw [hpv key] at hge
        omega
      rcases (hbv3 key).mpr hpos with ⟨v, hvv, hkeq⟩
      have hcnt : v.count = Leadership.keyCount (Leadership.flatVotes results companyName) key := by
        rw [hbv2 v hvv, hkeq]
      have hfilter : v ∈ (Leadership.buildVotes
          (Leadership.flatVotes results companyName)).filter
          (fun v => Leadership.consensusThreshold results ≤ v.count) := by
        refine List.mem_filter.mpr ⟨hvv, ?_⟩
        simp only [decide_eq_true_eq]
        rw [hcnt, ← hpv key]
        exact hge
      refine ⟨{ role := v.role, name := v.name }, ?_, ?_⟩
      · rw [hout]
        exact List.mem_map.mpr ⟨v, ((List.mergeSort_perm _ _).mem_iff).mpr hfilter, rfl⟩
      · rw [hbv1 v hvv, hkeq]
  · rw [hout]
    refine List.pairwise_map.mpr ?_
    have hsorted := List.sorted_mergeSort countDesc_trans countDesc_total
      ((Leadership.buildVotes (Leadership.flatVotes results companyName)).filter
        (fun v => Leadership.consensusThreshold results ≤ v.count))
    refine List.Pairwise.imp_of_mem ?_ hsorted
    intro v w hvmem hwmem h
    have hvv : v ∈ Leadership.buildVotes (Leadership.flatVotes results companyName) :=
      List.mem_of_mem_filter (((List.mergeSort_perm _ _).mem_iff).mp hvmem)
    have hww : w ∈ Leadership.buildVotes (Leadership.flatVotes results companyName) :=
      List.mem_of_mem_filter (((List.mergeSort_perm _ _).mem_iff).mp hwmem)
    rw [hbv1 v hvv, hbv1 w hww, hpv, hpv, ← hbv2 v hvv, ← hbv2 w hww]
    unfold Leadership.countDesc at h
    simpa using h
  · have h1 : (Leadership.collectVotes Leadership.exampleThreeProviders "Acme").filter
        (fun v => Leadership.consensusThreshold Leadership.exampleThreeProviders ≤ v.count) =
        [{ key := "CEO::jane doe", role := "CEO", name := "Jane Doe", count := 2,
           providers := ["a", "b"] }] := by decide
    have hex3 : Leadership.mergeLeadership Leadership.exampleThreeProviders "Acme" =
        [{ role := "CEO", name := "Jane Doe" }] := by
      simp only [Leadership.mergeLeadership]
      rw [h1, List.mergeSort_singleton]
      rfl
    rw [hex3]
    refine ⟨List.mem_singleton.mpr rfl, ?_⟩
    decide

/-- C1 counterexample: with two responding providers where the first lists
`{CEO, "Jane"}` twice and the second proposes nothing, the pair is accepted
(2 votes) although only 1 distinct provider voted for it — so acceptance is
not equivalent to votes from at least 2 distinct providers. -/
theorem mergeLeadership_distinct_provider_cex :
    Leadership.mergeLeadership Leadership.exDupProviders "X" =
      [{ role := "CEO", name := "Jane" }] ∧
    Leadership.distinctProviderVotes Leadership.exDupProviders "X"
      (Leadership.leaderKey { role := "CEO", name := "Jane" }) = 1 ∧
    Leadership.exDupProviders.length = 2 := by
  refine ⟨?_, by decide, by decide⟩
  have h1 : (Leadership.collectVotes Leadership.exDupProviders "X").filter
      (fun v => Leadership.consensusThreshold Leadership.exDupProviders ≤ v.count) =
      [{ key := "CEO::jane", role := "CEO", name := "Jane", count := 2,
         providers := ["a", "a"] }] := by decide
  simp only [Leadership.mergeLeadership]
  rw [h1, List.mergeSort_singleton]
  rfl
